import Mathlib

/-!
Verification of the generic model/attribute mapping framework and paginated
collection engine of the Nylas Node SDK (`src/nylas-connection.ts`), as a
shallow embedding in Lean 4.

Conventions of the embedding:
* The HTTP server behind `NylasConnection.request` is modelled, for the
  pagination claims, as a finite list of items: a chunk request at
  `offset`/`limit` returns `(server.drop offset).take limit`.
* Promises are modelled by `Except`: a resolved promise is `.ok`, a rejected
  one `.error`.  The dual callback/promise convention of each public
  operation is modelled by a record holding the promise outcome, the list of
  callback invocations, and whether a network request was issued.
* JavaScript values reaching the attribute layer are modelled by the
  inductive `JVal`; JS numbers by `Rat` (the code performs no operation on
  them where binary floating point rounding is observable at the inputs the
  claims exercise); JS `Date` objects by their integer millisecond value.
* Loops written as promise recursion in the source (`iteratee`) are embedded
  as fuel-indexed structural recursions; the fuel is always provably
  sufficient, and on exhaustion the loop stops with the accumulator.
-/

/-- `REQUEST_CHUNK_SIZE` (line 210 of the source). -/
def REQUEST_CHUNK_SIZE : Nat := 100

/-- One chunk request as issued by `_getItems`: the requested `offset`, the
requested `limit`, and the number of items the server returned. -/
structure ChunkReq where
  offset : Nat
  limit : Nat
  returned : Nat
deriving DecidableEq, Repr

/-- The well-behaved HTTP server behind `_getItems`: holds a finite item
sequence and answers a chunk request with the `limit`-bounded slice starting
at `offset`. -/
def serverChunk (server : List α) (offset limit : Nat) : List α :=
  (server.drop offset).take limit

/-- The per-iteration requested chunk size of `_range`
(`Math.min(REQUEST_CHUNK_SIZE, limit - accumulated.length)`, lines 485-488).
`limit = none` models `Infinity` (`params.limit || Infinity`, line 334). -/
def rangeChunkLimit (limit : Option Nat) (accLen : Nat) : Nat :=
  match limit with
  | none => REQUEST_CHUNK_SIZE
  | some l => min REQUEST_CHUNK_SIZE (l - accLen)

/-- The recursive `iteratee` of `RestfulModelCollection._range`
(lines 483-499): requests a chunk at `offset + accumulated.length` of size
`min(100, limit - accumulated.length)`, concatenates, and stops when the
chunk is shorter than `REQUEST_CHUNK_SIZE` or the accumulated length reaches
`limit`.  Returns the accumulated items and the trace of chunk requests. -/
def rangeLoop (server : List α) (offset : Nat) (limit : Option Nat)
    (acc : List α) : Nat → List α × List ChunkReq
  | 0 => (acc, [])
  | fuel + 1 =>
    let chunkOffset := offset + acc.length
    let chunkLimit := rangeChunkLimit limit acc.length
    let items := serverChunk server chunkOffset chunkLimit
    let acc2 := acc ++ items
    let req : ChunkReq := ⟨chunkOffset, chunkLimit, items.length⟩
    let finished :=
      decide (items.length < REQUEST_CHUNK_SIZE) ||
        (match limit with
         | none => false
         | some l => decide (acc2.length ≥ l))
    if finished then (acc2, [req])
    else
      let rest := rangeLoop server offset limit acc2 fuel
      (rest.1, req :: rest.2)

/-- The `limit` value `list` hands to `_range`: `params.limit || Infinity`
(line 334).  A falsy limit — the number `0`, like an absent field — is
coerced to `Infinity` (`none`). -/
def listEffectiveLimit (limit : Option Nat) : Option Nat :=
  match limit with
  | some 0 => none
  | l => l

/-- `RestfulModelCollection.list({limit, offset})` run against a finite
server (lines 322-337 delegating to `_range`, lines 468-517): the accumulated
result together with the chunk-request trace.  The fuel `server.length + 1`
is provably sufficient (see `rangeLoop_some_eq` and `rangeLoop_none_eq`). -/
def listRun (server : List α) (limit : Option Nat) (offset : Nat := 0) :
    List α × List ChunkReq :=
  rangeLoop server offset (listEffectiveLimit limit) [] (server.length + 1)

/-- An observable callback invocation of `forEach`: either `eachCallback`
receiving one item, or `completeCallback` receiving an optional error
(errors are identified by the index of the chunk request that rejected). -/
inductive FEvent (α : Type) where
  | item (a : α)
  | complete (err : Option Nat)
deriving DecidableEq, Repr

/-- The recursive `iteratee` of `RestfulModelCollection.forEach`
(lines 244-255): fetches a chunk of requested size `REQUEST_CHUNK_SIZE` at
`offset`, delivers every returned item to `eachCallback`, advances `offset`
by the actual returned length (`offset += items.length`, line 249), and
recurses unless the chunk was shorter than `REQUEST_CHUNK_SIZE`.  `failAt`
injects a request-level rejection at the given request index; `none` models
a fault-free transport.  Returns the items delivered in order, the trace of
successful chunk requests, and the rejection if one occurred. -/
def forEachLoop (server : List α) (failAt : Option Nat)
    (reqIdx offset : Nat) : Nat → List α × List ChunkReq × Option Nat
  | 0 => ([], [], none)
  | fuel + 1 =>
    if failAt = some reqIdx then ([], [], some reqIdx)
    else
      let items := serverChunk server offset REQUEST_CHUNK_SIZE
      let req : ChunkReq := ⟨offset, REQUEST_CHUNK_SIZE, items.length⟩
      if items.length < REQUEST_CHUNK_SIZE then (items, [req], none)
      else
        let rest :=
          forEachLoop server failAt (reqIdx + 1) (offset + items.length) fuel
        (items ++ rest.1, req :: rest.2.1, rest.2.2)

/-- The callback sequence observed by the caller of `forEach`
(lines 229-269): each delivered item in delivery order, followed by the
single completion notification (`completeCallback()` on success,
`completeCallback(err)` on failure, lines 257-268) when a completion
callback was supplied. -/
def forEachEvents (server : List α) (failAt : Option Nat)
    (hasComplete : Bool) : List (FEvent α) :=
  let run := forEachLoop server failAt 0 0 (server.length + 1)
  run.1.map FEvent.item ++
    (if hasComplete then [FEvent.complete run.2.2] else [])

/-!
Date/time layer.  `AttributeDate` and `AttributeDateTime` (lines 90-134)
delegate to the platform `Date` built-in; the calendar arithmetic below is
modelled from the ECMAScript specification of `Date` (proleptic Gregorian
calendar, integer milliseconds since the Unix epoch, UTC).  `daysFromCivil`
and `civilFromDays` are the standard era-based day-number conversions.
-/

/-- Day number (days since 1970-01-01) of the proleptic Gregorian date
`y-m-d`. -/
def daysFromCivil (y m d : Int) : Int :=
  let y2 : Int := if m ≤ 2 then y - 1 else y
  let era : Int := y2 / 400
  let yoe : Int := y2 - era * 400
  let mp : Int := if 2 < m then m - 3 else m + 9
  let doy : Int := (153 * mp + 2) / 5 + d - 1
  let doe : Int := yoe * 365 + yoe / 4 - yoe / 100 + doy
  era * 146097 + doe - 719468

/-- Decimal value of a digit character. -/
def digitVal (c : Char) : Option Nat :=
  if 48 ≤ c.toNat ∧ c.toNat ≤ 57 then some (c.toNat - 48) else none

def parseDigits2 (a b : Char) : Option Nat := do
  let x ← digitVal a
  let y ← digitVal b
  pure (10 * x + y)

def parseDigits3 (a b c : Char) : Option Nat := do
  let x ← digitVal a
  let y ← digitVal b
  let z ← digitVal c
  pure (100 * x + 10 * y + z)

def parseDigits4 (a b c d : Char) : Option Nat := do
  let x ← digitVal a
  let y ← digitVal b
  let z ← digitVal c
  let w ← digitVal d
  pure (1000 * x + 100 * y + 10 * z + w)

/-- UTC time value of broken-down fields, with the field validation of the
ECMAScript Date Time String Format (syntactic digit ranges). -/
def mkUTC (y mo d h mi s ms : Nat) : Option Int :=
  if 1 ≤ mo ∧ mo ≤ 12 ∧ 1 ≤ d ∧ d ≤ 31 ∧ h ≤ 23 ∧ mi ≤ 59 ∧ s ≤ 59 then
    some (daysFromCivil (y : Int) (mo : Int) (d : Int) * 86400000 +
      ((h * 3600000 + mi * 60000 + s * 1000 + ms : Nat) : Int))
  else none

/-- Modelled from the ECMAScript Date Time String Format parser used by
`new Date(string)` (called at line 109 of the source), for the two shapes
the claims exercise: the date-only form `YYYY-MM-DD` (interpreted as UTC
midnight) and the canonical form `YYYY-MM-DDTHH:mm:ss.sssZ`.  `none` models
an invalid `Date`. -/
def parseISO (s : String) : Option Int :=
  match s.data with
  | [y1, y2, y3, y4, a1, mo1, mo2, a2, d1, d2] =>
    if a1 = '-' ∧ a2 = '-' then do
      let y ← parseDigits4 y1 y2 y3 y4
      let mo ← parseDigits2 mo1 mo2
      let d ← parseDigits2 d1 d2
      mkUTC y mo d 0 0 0 0
    else none
  | [y1, y2, y3, y4, a1, mo1, mo2, a2, d1, d2, a3, h1, h2, a4, mi1, mi2,
     a5, s1, s2, a6, r1, r2, r3, a7] =>
    if a1 = '-' ∧ a2 = '-' ∧ a3 = 'T' ∧ a4 = ':' ∧ a5 = ':' ∧ a6 = '.' ∧
        a7 = 'Z' then do
      let y ← parseDigits4 y1 y2 y3 y4
      let mo ← parseDigits2 mo1 mo2
      let d ← parseDigits2 d1 d2
      let h ← parseDigits2 h1 h2
      let mi ← parseDigits2 mi1 mi2
      let s ← parseDigits2 s1 s2
      let r ← parseDigits3 r1 r2 r3
      mkUTC y mo d h mi s r
    else none
  | _ => none

/-- JS truncation toward zero (`ToIntegerOrInfinity`), applied by the `Date`
constructor when clipping its millisecond argument. -/
def jsTrunc (q : Rat) : Int := q.num.sign * (q.num.natAbs / q.den : Nat)

/-- The ECMAScript `TimeClip` range: a `Date` time value is valid only when
its absolute value is at most `8.64e15` milliseconds. -/
def TIME_CLIP_BOUND : Nat := 8640000000000000

/-- Modelled from the ECMAScript `Date` constructor on a numeric argument:
`TimeClip(ToIntegerOrInfinity(ms))` — the truncated millisecond count when
within the `TimeClip` range, otherwise `none`, an invalid `Date` whose
internal time value is `NaN`. -/
def dateFromMs (q : Rat) : Option Int :=
  if (jsTrunc q).natAbs ≤ TIME_CLIP_BOUND then some (jsTrunc q) else none

/-- JavaScript values as they reach the attribute coercion layer.  Numbers
are modelled by `Rat` (`NaN` is not representable and not exercised by the
claims); `date none` is an invalid `Date`, `date (some ms)` a `Date` holding
`ms` integer milliseconds; `model j` stands for a `RestfulModel` instance
built from the wire object `j` (`new this.itemClass(parent.connection,
objJSON)`, line 175). -/
inductive JVal where
  | undef
  | null
  | num (q : Rat)
  | str (s : String)
  | bool (b : Bool)
  | arr (xs : List JVal)
  | date (ms : Option Int)
  | model (j : JVal)

/-- JS truthiness (the `!val` and `val || fallback` tests): `undefined`,
`null`, `false`, `0` and the empty string are falsy; every object (array,
date, model instance) is truthy. -/
def JVal.truthy : JVal → Bool
  | .undef => false
  | .null => false
  | .num q => q != 0
  | .str s => s != ""
  | .bool b => b
  | .arr _ => true
  | .date _ => true
  | .model _ => true

/-- JS `ToNumber` coercion for the value shapes this code exercises; `none`
models `NaN`.  (Numeric string parsing and array coercion are not exercised
by the claims: a nonempty string or array is mapped to `NaN` here.) -/
def jsToNumber : JVal → Option Rat
  | .undef => none
  | .null => some 0
  | .num q => some q
  | .str s => if s = "" then some 0 else none
  | .bool b => some (if b then 1 else 0)
  | .arr xs => match xs with | [] => some 0 | _ => none
  | .date ms => ms.map (fun z => (z : Rat))
  | .model _ => none

/-- `Attribute.fromJSON` (lines 26-28): `return val || null`. -/
def attributeFromJSON (val : JVal) : JVal :=
  if val.truthy then val else .null

/-- `AttributeNumber.fromJSON` (lines 54-60):
`if (!isNaN(val)) { return Number(val); } else { return null; }`.
Note that JS `isNaN(null)` is `false` (`Number(null)` is `0`), so a present
`null` coerces to the number `0`, while `undefined` yields `null`. -/
def attributeNumberFromJSON (val : JVal) : JVal :=
  match jsToNumber val with
  | some q => .num q
  | none => .null

/-- `AttributeBoolean.fromJSON` (lines 67-69):
`return val === 'true' || val === true || false`. -/
def attributeBooleanFromJSON (val : JVal) : JVal :=
  .bool (match val with
         | .str s => s == "true"
         | .bool b => b
         | _ => false)

/-- `AttributeString.fromJSON` (lines 76-78): `return val || ''`. -/
def attributeStringFromJSON (val : JVal) : JVal :=
  if val.truthy then val else .str ""

/-- `AttributeStringList.fromJSON` (lines 85-87): `return val || []`. -/
def attributeStringListFromJSON (val : JVal) : JVal :=
  if val.truthy then val else .arr []

/-- `AttributeDate.fromJSON` (lines 105-110) over `JVal`:
`if (!val) { return null; } return new Date(val)`. -/
def attributeDateFromJSONVal (val : JVal) : JVal :=
  if val.truthy then
    .date (match val with
           | .num q => dateFromMs q
           | .str s => parseISO s
           | .date ms => ms
           | .bool b => some (if b then 1 else 0)
           | _ => none)
  else .null

/-- `AttributeDateTime.fromJSON` (lines 128-133) over `JVal`:
`if (!val) { return null; } return new Date(val * 1000)` (the
multiplication coerces `val` with `ToNumber`). -/
def attributeDateTimeFromJSONVal (val : JVal) : JVal :=
  if val.truthy then
    .date (match jsToNumber val with
           | some q => dateFromMs (q * 1000)
           | none => none)
  else .null

/-- `AttributeObject.fromJSON`: the class (lines 31-48) declares no
override, so the base `Attribute.fromJSON` runs. -/
def attributeObjectFromJSON (val : JVal) : JVal :=
  attributeFromJSON val

/-- `AttributeCollection.fromJSON` (lines 169-179):
`if (!json || !(json instanceof Array)) { return []; }` then each element
is passed through the item class constructor. -/
def attributeCollectionFromJSON (val : JVal) : JVal :=
  match val with
  | .arr xs => .arr (xs.map .model)
  | _ => .arr []

/-- The attribute kinds provided by the `Attributes` factory
(lines 183-208). -/
inductive AttrKind where
  | base | number | string | stringList | boolean | date | dateTime
  | object | collection
deriving DecidableEq, Repr

/-- Dispatch of `attr.fromJSON(val, parent)` by attribute kind. -/
def kindFromJSON : AttrKind → JVal → JVal
  | .base => attributeFromJSON
  | .number => attributeNumberFromJSON
  | .string => attributeStringFromJSON
  | .stringList => attributeStringListFromJSON
  | .boolean => attributeBooleanFromJSON
  | .date => attributeDateFromJSONVal
  | .dateTime => attributeDateTimeFromJSONVal
  | .object => attributeObjectFromJSON
  | .collection => attributeCollectionFromJSON

/-- One declared attribute: native field name (`modelKey`), wire key
(`jsonKey`, defaulted to the model key by the `Attribute` constructor,
lines 18-21) and coercion kind. -/
structure AttrSpec where
  modelKey : String
  jsonKey : String
  kind : AttrKind
deriving DecidableEq, Repr

/-- `RestfulModel.fromJSON` (lines 620-629): for every declared attribute
whose wire key maps to a value other than `undefined` in the incoming
object (`json[attr.jsonKey] !== undefined`, line 624), assign
`attr.fromJSON(json[attr.jsonKey], this)` to the native field; every other
field keeps its prior value.  The instance state is a total map from field
name to value; the incoming object is a total map defaulting to `.undef`
for missing keys (so a key present with value `null` is processed while a
missing key is skipped). -/
def JVal.isUndef : JVal → Bool
  | .undef => true
  | _ => false

def modelFromJSON : List AttrSpec → (String → JVal) → (String → JVal) →
    (String → JVal)
  | [], _, state => state
  | a :: rest, json, state =>
    let state2 :=
      if (json a.jsonKey).isUndef then state
      else
        fun k => if k = a.modelKey then kindFromJSON a.kind (json a.jsonKey)
                 else state k
    modelFromJSON rest json state2

/-- The re-hydration `this.fromJSON(json)` that `RestfulModel._save`
performs on the server response body (line 697) before resolving with the
same instance. -/
def saveRehydrate (attrs : List AttrSpec) (response : String → JVal)
    (state : String → JVal) : String → JVal :=
  modelFromJSON attrs response state

/-- `RestfulModel.attributes` (lines 737-748). -/
def restfulModelAttributes : List AttrSpec :=
  [⟨"id", "id", .string⟩,
   ⟨"object", "object", .string⟩,
   ⟨"accountId", "account_id", .string⟩]

/-- `Calendar.attributes` (lines 808-834): the base attributes extended
with the calendar fields. -/
def calendarAttributes : List AttrSpec :=
  restfulModelAttributes ++
  [⟨"name", "name", .string⟩,
   ⟨"description", "description", .string⟩,
   ⟨"readOnly", "read_only", .boolean⟩,
   ⟨"location", "location", .string⟩,
   ⟨"timezone", "timezone", .string⟩,
   ⟨"isPrimary", "is_primary", .boolean⟩,
   ⟨"jobStatusId", "job_status_id", .string⟩]

def c8WitnessJson : String → JVal :=
  fun k => if k = "name" then .str "Work" else
           if k = "read_only" then .null else .undef

def c8WitnessState : String → JVal :=
  fun k => if k = "timezone" then .str "UTC" else .null

/-- The `view` query-modifier values the collection operations inspect. -/
inductive View where
  | count | ids | expanded
deriving DecidableEq, Repr

/-- An error reported by a collection operation: a synchronous usage error
carrying the message of the `Error` the source constructs, or an error
propagated from the request layer (identified by an abstract code). -/
inductive OpError where
  | usage (msg : String)
  | request (e : Nat)
deriving DecidableEq, Repr

/-- The caller-observable outcome of one dual promise/callback operation:
the settled state of the returned promise (`.ok none` resolved with
`undefined` — the value a callback invocation returned; `.ok (some a)`
resolved with a payload; `.error` rejected), the callback invocations in
order, and whether a network request was issued. -/
structure OpRun (A : Type) where
  promise : Except OpError (Option A)
  calls : List (Except OpError A)
  issued : Bool

/-- `RestfulModelCollection.count` (lines 271-293) given the request-layer
outcome `resp` (carrying `json.count` on success) and whether a trailing
callback was supplied.  `count` performs no view validation and always
issues its request; its `qs` object `{ view: 'count', ...params }`
(line 279) lets a caller-supplied `params.view` override the default
`'count'` (`countSentView`). -/
def countChannels (_view : Option View) (resp : Except Nat Nat)
    (cb : Bool) : OpRun Nat :=
  match resp with
  | .ok n => ⟨.ok (some n), if cb then [.ok n] else [], true⟩
  | .error e =>
    ⟨.error (.request e), if cb then [.error (.request e)] else [], true⟩

/-- The `view` value `count` actually transmits in its query string:
`{ view: 'count', ...params }` spreads the caller params after the
default, so a caller view wins. -/
def countSentView (view : Option View) : View := view.getD .count

/-- `RestfulModelCollection.first` (lines 295-320): rejects synchronously
(callback included) on `params.view == 'count'` before any request;
otherwise resolves with `items[0]` (which may be `undefined`). -/
def firstChannels (view : Option View) (resp : Except Nat (List Nat))
    (cb : Bool) : OpRun (Option Nat) :=
  if view = some View.count then
    let e : OpError := .usage "first() cannot be called with the count view"
    ⟨.error e, if cb then [.error e] else [], false⟩
  else
    match resp with
    | .ok items =>
      ⟨.ok (some items.head?), if cb then [.ok items.head?] else [], true⟩
    | .error e =>
      ⟨.error (.request e), if cb then [.error (.request e)] else [], true⟩

/-- `RestfulModelCollection.list` (lines 322-337) delegating to `_range`
(lines 468-517).  The view check rejects the returned promise even when a
callback is supplied (lines 326-332); in the traversal itself, `_range`
settles the promise with the callback result when a callback is supplied —
including on error, where the callback receives the error and the promise
resolves, "to prevent unhandled rejection warning" (comment at
lines 501-502). -/
def listChannels (view : Option View) (resp : Except Nat (List Nat))
    (cb : Bool) : OpRun (List Nat) :=
  if view = some View.count then
    let e : OpError := .usage "list() cannot be called with the count view"
    ⟨.error e, if cb then [.error e] else [], false⟩
  else
    match resp with
    | .ok items =>
      if cb then ⟨.ok none, [.ok items], true⟩
      else ⟨.ok (some items), [], true⟩
    | .error e =>
      if cb then ⟨.ok none, [.error (.request e)], true⟩
      else ⟨.error (.request e), [], true⟩

/-- `RestfulModelCollection.find` (lines 339-391): rejects synchronously on
a falsy `id` or on `params.view` equal to `'count'` or `'ids'`, otherwise
fetches the model. -/
def findChannels (id : String) (view : Option View) (resp : Except Nat Nat)
    (cb : Bool) : OpRun Nat :=
  if id = "" then
    let e : OpError := .usage "find() must be called with an item id"
    ⟨.error e, if cb then [.error e] else [], false⟩
  else if view = some View.count ∨ view = some View.ids then
    let e : OpError :=
      .usage "find() cannot be called with the count or ids view"
    ⟨.error e, if cb then [.error e] else [], false⟩
  else
    match resp with
    | .ok m => ⟨.ok (some m), if cb then [.ok m] else [], true⟩
    | .error e =>
      ⟨.error (.request e), if cb then [.error (.request e)] else [], true⟩

/-- The observable behaviour of `RestfulModelCollection.forEach`
(lines 229-269) at the calling-convention level: `ret` is the function
return value (`some e` — a promise rejected with `e`, returned only on the
`view == 'count'` precondition violation, lines 234-240; `none` — the
JavaScript `undefined`, since the traversal result is not returned,
lines 257-268), and `completeCalls` lists the invocations of the optional
completion callback with their argument. -/
structure ForEachRun where
  ret : Option OpError
  completeCalls : List (Option OpError)
deriving DecidableEq

def forEachChannels (view : Option View) (resp : Except Nat Unit)
    (hasComplete : Bool) : ForEachRun :=
  if view = some View.count then
    let e : OpError := .usage "forEach() cannot be called with the count view"
    { ret := some e, completeCalls := if hasComplete then [some e] else [] }
  else
    match resp with
    | .ok _ =>
      { ret := none, completeCalls := if hasComplete then [none] else [] }
    | .error e =>
      { ret := none,
        completeCalls := if hasComplete then [some (.request e)] else [] }

/-- `SUPPORTED_API_VERSION` (line 7). -/
def SUPPORTED_API_VERSION : String := "2.1"

/-- The parsed response-body fields the error path of `request()` consumes:
`message`, `missing_fields` (a JSON array — present counts as truthy in JS
even when empty; the template literal stringifies it by joining with
commas) and `server_error` (a string — truthy only when nonempty). -/
structure RespBody where
  message : String
  missing_fields : Option (List String)
  server_error : Option String
deriving DecidableEq, Repr

/-- The error object `request()` rejects with: its final `message` and the
`statusCode` attached to it (only when the numeric status is truthy,
`if (response.statusCode)`, line 1277). -/
structure NylasError where
  message : String
  statusCode : Option Nat
deriving DecidableEq, Repr

/-- The error-message construction of `NylasConnection.request`
(lines 1265-1276): seed from the transport error message if any, else
`new Error(body.message)`; a present `body.missing_fields` overwrites the
message with `` `${body.message}: ${body.missing_fields}` ``; a truthy
`body.server_error` appends the `(Server Error: ...)` template with the
newlines and indentation of the source template literal. -/
def buildErrorMessage (transportMsg : Option String) (body : RespBody) :
    String :=
  let m0 := match transportMsg with
    | some m => m
    | none => body.message
  let m1 := match body.missing_fields with
    | some mf => body.message ++ ": " ++ String.intercalate "," mf
    | none => m0
  match body.server_error with
  | some se =>
    if se = "" then m1
    else
      m1 ++ " (Server Error:\n              " ++ se ++ "\n            )"
  | none => m1

/-- The outcome classification of `NylasConnection.request`
(lines 1240-1290) when a response was received: a transport error or a
status code above 299 rejects with the built error, otherwise the parsed
body resolves the promise.  (When no response object exists at all the
promise rejects with the transport error or `new Error('No response')`,
lines 1242-1245 — not exercised by the claims.) -/
def requestOutcome (transportMsg : Option String) (statusCode : Nat)
    (body : RespBody) : Except NylasError RespBody :=
  if transportMsg.isSome ∨ statusCode > 299 then
    .error ⟨buildErrorMessage transportMsg body,
      if statusCode ≠ 0 then some statusCode else none⟩
  else
    .ok body

def outcomeStatus : Except NylasError RespBody → Option Nat
  | .error e => e.statusCode
  | .ok _ => none

def outcomeMessage : Except NylasError RespBody → Option String
  | .error e => some e.message
  | .ok _ => none

/-- `parseInt` on a version segment: the value of the leading digit run,
`NaN` (`none`) when there is none.  (Sign and whitespace handling of the JS
built-in are not exercised by version strings.) -/
def jsParseInt (s : String) : Option Nat :=
  let t := s.data.takeWhile Char.isDigit
  if t = [] then none
  else some (t.foldl (fun acc c => acc * 10 + (c.toNat - 48)) 0)

/-- `apiVersion.split('-')[0]`. -/
def splitDashHead (s : String) : String := ⟨s.data.takeWhile (fun c => c ≠ '-')⟩

/-- `NylasConnection._getWarningForVersion` (lines 1212-1233): an empty
string when the two versions are equal or either is absent or empty
(JS truthiness of `sdkApiVersion && apiVersion`); otherwise the base
warning, with a sentence naming the newer side appended only when the
`parseInt` values of the leading segments differ (`NaN` comparisons are
false, leaving the base warning alone). -/
def getWarningForVersion (sdkApiVersion apiVersion : Option String) :
    String :=
  if sdkApiVersion = apiVersion then ""
  else
    match sdkApiVersion, apiVersion with
    | some sdk, some api =>
      if sdk = "" ∨ api = "" then ""
      else
        let base :=
          "WARNING: SDK version may not support your Nylas API version." ++
          " SDK supports version " ++ sdk ++
          " of the API and your application" ++
          " is currently running on version " ++ api ++ " of the API."
        match jsParseInt (splitDashHead sdk),
          jsParseInt (splitDashHead api) with
        | some sdkNum, some apiNum =>
          if apiNum < sdkNum then
            base ++ " Please update the version of the API that your application is using through the developer dashboard."
          else if sdkNum < apiNum then
            base ++ " Please update the sdk to ensure it works properly."
          else base
        | _, _ => base
    | _, _ => ""

/-- One run of `request()` on a received response: the promise outcome and
the warning string computed from the `nylas-api-version` response header
against `SUPPORTED_API_VERSION` (lines 1246-1257); a nonempty warning is
passed to `console.warn`, nothing else. -/
def requestRun (transportMsg : Option String) (statusCode : Nat)
    (apiVersionHeader : Option String) (body : RespBody) :
    Except NylasError RespBody × String :=
  (requestOutcome transportMsg statusCode body,
   getWarningForVersion (some SUPPORTED_API_VERSION) apiVersionHeader)

/-- Kernel-computable version of `String.endsWith`. -/
def strEndsWith (s t : String) : Bool := t.data.isSuffixOf s.data

theorem serverChunk_length (server : List α) (offset limit : Nat) :
    (serverChunk server offset limit).length =
      min limit (server.length - offset) := by
  simp [serverChunk]

theorem take_append_serverChunk (server : List α) (m k : Nat) :
    server.take m ++ serverChunk server m k =
      server.take (m + (serverChunk server m k).length) := by
  rw [List.take_add server m (serverChunk server m k).length]
  congr 1
  rw [serverChunk, List.take_eq_take]
  simp only [List.length_take, List.length_drop]
  omega

theorem length_le_of_take_eq (server acc : List α)
    (hacc : acc = server.take acc.length) : acc.length ≤ server.length := by
  have h := congrArg List.length hacc
  simp only [List.length_take] at h
  omega

theorem acc_append_chunk (server acc : List α) (k : Nat)
    (hacc : acc = server.take acc.length) :
    acc ++ serverChunk server acc.length k =
      server.take (acc ++ serverChunk server acc.length k).length := by
  conv_rhs => rw [List.length_append]
  nth_rewrite 1 [hacc]
  exact take_append_serverChunk ..

theorem rangeLoop_some_eq (server : List α) (l : Nat) :
    ∀ fuel acc, acc = server.take acc.length → acc.length ≤ l →
      server.length < acc.length + REQUEST_CHUNK_SIZE * fuel →
      (rangeLoop server 0 (some l) acc fuel).1 = server.take l := by
  intro fuel
  induction fuel with
  | zero =>
    intro acc hacc _ hfuel
    have := length_le_of_take_eq server acc hacc
    simp only [REQUEST_CHUNK_SIZE] at hfuel
    omega
  | succ n ih =>
    intro acc hacc hle hfuel
    have haccle := length_le_of_take_eq server acc hacc
    simp only [REQUEST_CHUNK_SIZE] at hfuel
    simp only [rangeLoop, Nat.zero_add]
    have hacc2 := acc_append_chunk server acc
      (rangeChunkLimit (some l) acc.length) hacc
    have hck : (serverChunk server acc.length
        (rangeChunkLimit (some l) acc.length)).length =
        min (min 100 (l - acc.length)) (server.length - acc.length) := by
      rw [serverChunk_length]
      simp [rangeChunkLimit, REQUEST_CHUNK_SIZE]
    split
    next hfin =>
      simp only [Bool.or_eq_true, decide_eq_true_eq, List.length_append,
        REQUEST_CHUNK_SIZE] at hfin
      rw [hacc2, List.take_eq_take, List.length_append]
      omega
    next hfin =>
      simp only [Bool.or_eq_true, decide_eq_true_eq, List.length_append,
        REQUEST_CHUNK_SIZE, not_or, Nat.not_lt] at hfin
      have := ih (acc ++ serverChunk server acc.length
          (rangeChunkLimit (some l) acc.length))
        hacc2
        (by simp only [List.length_append]; omega)
        (by simp only [List.length_append, REQUEST_CHUNK_SIZE]; omega)
      simpa using this

theorem rangeLoop_none_eq (server : List α) :
    ∀ fuel acc, acc = server.take acc.length →
      server.length < acc.length + REQUEST_CHUNK_SIZE * fuel →
      (rangeLoop server 0 none acc fuel).1 = server := by
  intro fuel
  induction fuel with
  | zero =>
    intro acc hacc hfuel
    have := length_le_of_take_eq server acc hacc
    simp only [REQUEST_CHUNK_SIZE] at hfuel
    omega
  | succ n ih =>
    intro acc hacc hfuel
    have haccle := length_le_of_take_eq server acc hacc
    simp only [REQUEST_CHUNK_SIZE] at hfuel
    simp only [rangeLoop, Nat.zero_add]
    have hacc2 := acc_append_chunk server acc
      (rangeChunkLimit none acc.length) hacc
    have hck : (serverChunk server acc.length
        (rangeChunkLimit none acc.length)).length =
        min 100 (server.length - acc.length) := by
      rw [serverChunk_length]
      simp [rangeChunkLimit, REQUEST_CHUNK_SIZE]
    split
    next hfin =>
      simp only [Bool.or_false, decide_eq_true_eq,
        REQUEST_CHUNK_SIZE] at hfin
      rw [hacc2]
      have hlen : (acc ++ serverChunk server acc.length
          (rangeChunkLimit none acc.length)).length = server.length := by
        rw [List.length_append]
        omega
      rw [hlen, List.take_length]
    next hfin =>
      simp only [Bool.or_false, decide_eq_true_eq,
        REQUEST_CHUNK_SIZE, Nat.not_lt] at hfin
      have := ih (acc ++ serverChunk server acc.length
          (rangeChunkLimit none acc.length))
        hacc2
        (by simp only [List.length_append, REQUEST_CHUNK_SIZE]; omega)
      simpa using this

theorem rangeChunkLimit_le (limit : Option Nat) (accLen : Nat) :
    rangeChunkLimit limit accLen ≤ REQUEST_CHUNK_SIZE := by
  cases limit <;> simp [rangeChunkLimit]

theorem rangeLoop_trace_offset_lb (server : List α) (offset : Nat)
    (limit : Option Nat) :
    ∀ fuel acc, ∀ r ∈ (rangeLoop server offset limit acc fuel).2,
      offset + acc.length ≤ r.offset := by
  intro fuel
  induction fuel with
  | zero => intro acc r hr; simp [rangeLoop] at hr
  | succ n ih =>
    intro acc r hr
    simp only [rangeLoop] at hr
    split at hr
    · simp only [List.mem_singleton] at hr
      subst hr
      exact Nat.le_refl _
    · simp only [List.mem_cons] at hr
      rcases hr with hr | hr
      · subst hr
        exact Nat.le_refl _
      · have := ih _ r hr
        simp only [List.length_append] at this
        omega

theorem rangeLoop_trace_pairwise (server : List α) (offset : Nat)
    (limit : Option Nat) :
    ∀ fuel acc, List.Pairwise (fun a b : ChunkReq => a.offset < b.offset)
      (rangeLoop server offset limit acc fuel).2 := by
  intro fuel
  induction fuel with
  | zero => intro acc; simp [rangeLoop]
  | succ n ih =>
    intro acc
    simp only [rangeLoop]
    split
    next hfin => simp
    next hfin =>
      simp only [Bool.or_eq_true, not_or, decide_eq_true_eq] at hfin
      refine List.pairwise_cons.mpr ⟨?_, ih _⟩
      intro r hr
      have hlb := rangeLoop_trace_offset_lb server offset limit n _ r hr
      simp only [List.length_append] at hlb
      have hfull := hfin.1
      simp only [Nat.not_lt, REQUEST_CHUNK_SIZE] at hfull
      dsimp only
      omega

theorem rangeLoop_trace_shape (server : List α) (limit : Option Nat) :
    ∀ fuel acc, acc = server.take acc.length →
      server.length < acc.length + REQUEST_CHUNK_SIZE * fuel →
      ∃ ts t, (rangeLoop server 0 limit acc fuel).2 = ts ++ [t] ∧
        ∀ r ∈ ts, r.returned = REQUEST_CHUNK_SIZE := by
  intro fuel
  induction fuel with
  | zero =>
    intro acc hacc hfuel
    have := length_le_of_take_eq server acc hacc
    simp only [REQUEST_CHUNK_SIZE] at hfuel
    omega
  | succ n ih =>
    intro acc hacc hfuel
    have haccle := length_le_of_take_eq server acc hacc
    simp only [REQUEST_CHUNK_SIZE] at hfuel
    simp only [rangeLoop, Nat.zero_add]
    have hacc2 := acc_append_chunk server acc
      (rangeChunkLimit limit acc.length) hacc
    have hck : (serverChunk server acc.length
        (rangeChunkLimit limit acc.length)).length =
        min (rangeChunkLimit limit acc.length) (server.length - acc.length) :=
      serverChunk_length ..
    have hcl := rangeChunkLimit_le limit acc.length
    simp only [REQUEST_CHUNK_SIZE] at hcl
    split
    next hfin =>
      exact ⟨[], ⟨acc.length, rangeChunkLimit limit acc.length,
        (serverChunk server acc.length
          (rangeChunkLimit limit acc.length)).length⟩, by simp, by simp⟩
    next hfin =>
      simp only [Bool.or_eq_true, not_or, decide_eq_true_eq,
        Nat.not_lt, REQUEST_CHUNK_SIZE] at hfin
      obtain ⟨ts, t, htr, hts⟩ := ih (acc ++ serverChunk server acc.length
          (rangeChunkLimit limit acc.length))
        hacc2
        (by simp only [List.length_append, REQUEST_CHUNK_SIZE]; omega)
      refine ⟨⟨acc.length, rangeChunkLimit limit acc.length,
        (serverChunk server acc.length
          (rangeChunkLimit limit acc.length)).length⟩ :: ts, t, ?_, ?_⟩
      · simp [htr]
      · intro r hr
        simp only [List.mem_cons] at hr
        rcases hr with hr | hr
        · subst hr
          simp only [REQUEST_CHUNK_SIZE]
          omega
        · exact hts r hr

/-- C1 (amended): for every nonzero requested limit `L` and server-side
item sequence, `list({limit: L})` requests chunks of size
`min(100, L - accumulated)` at strictly increasing offsets, stops on a
chunk shorter than 100 or when the accumulated count reaches `L` (every
non-final chunk returns exactly 100 items), and resolves to the ordered
prefix of at most `L` items — exactly `L` when at least `L` exist; the
limit `0` is falsy and coerced to `Infinity` (line 334), so
`list({limit: 0})` returns the whole collection, exactly like no limit;
with 250 items and no limit, exactly 3 chunk requests are issued,
returning 100, 100 and 50 items. -/
theorem c1_list_bounded_chunking (server : List Nat) (l : Nat)
    (hl : l ≠ 0) :
    (listRun server (some l)).1 = server.take l ∧
    (listRun server (some l)).1.length ≤ l ∧
    (l ≤ server.length → (listRun server (some l)).1.length = l) ∧
    (listRun server none).1 = server ∧
    (listRun server (some 0)).1 = server ∧
    List.Pairwise (fun a b : ChunkReq => a.offset < b.offset)
      (listRun server (some l)).2 ∧
    (∀ r ∈ (listRun server (some l)).2.dropLast,
      r.returned = REQUEST_CHUNK_SIZE) ∧
    listRun (List.range 250) none =
      (List.range 250, [⟨0, 100, 100⟩, ⟨100, 100, 100⟩, ⟨200, 100, 50⟩]) := by
  have heff : listEffectiveLimit (some l) = some l := by
    cases l with
    | zero => exact absurd rfl hl
    | succ n => rfl
  have hnone : (listRun server none).1 = server := by
    apply rangeLoop_none_eq server (server.length + 1) []
    · simp
    · simp only [List.length_nil, REQUEST_CHUNK_SIZE]
      omega
  have hres : (listRun server (some l)).1 = server.take l := by
    show (rangeLoop server 0 (listEffectiveLimit (some l)) []
      (server.length + 1)).1 = server.take l
    rw [heff]
    apply rangeLoop_some_eq server l (server.length + 1) []
    · simp
    · simp
    · simp only [List.length_nil, REQUEST_CHUNK_SIZE]
      omega
  refine ⟨hres, ?_, ?_, hnone, hnone, ?_, ?_, ?_⟩
  · rw [hres]
    simp only [List.length_take]
    omega
  · intro hll
    rw [hres]
    simp only [List.length_take]
    omega
  · exact rangeLoop_trace_pairwise server 0 (listEffectiveLimit (some l))
      (server.length + 1) []
  · obtain ⟨ts, t, htr, hts⟩ := rangeLoop_trace_shape server
      (listEffectiveLimit (some l)) (server.length + 1) [] (by simp)
      (by simp only [List.length_nil, REQUEST_CHUNK_SIZE]; omega)
    intro r hr
    rw [listRun] at hr
    rw [htr, List.dropLast_concat] at hr
    exact hts r hr
  · set_option maxRecDepth 40000 in decide

theorem c1_list_bounded_chunking_witness :
    (listRun (List.range 5) (some 3)).1.length = 3 :=
  (c1_list_bounded_chunking (List.range 5) 3 (by decide)).2.2.1 (by decide)

/-- C1, counterexample to the original claim: with a requested limit of
`0`, `list` does not return at most `0` items — the falsy limit is coerced
to `Infinity` by `params.limit || Infinity` (line 334), so the whole
collection comes back. -/
theorem c1_limit_zero_cex :
    (listRun [10, 20, 30] (some 0)).1 = [10, 20, 30] ∧
    ¬ (listRun [10, 20, 30] (some 0)).1.length ≤ 0 :=
  ⟨by decide, by decide⟩

theorem forEachLoop_none_eq (server : List α) :
    ∀ fuel reqIdx offset,
      server.length < offset + REQUEST_CHUNK_SIZE * fuel →
      (forEachLoop server none reqIdx offset fuel).1 = server.drop offset ∧
      (forEachLoop server none reqIdx offset fuel).2.2 = none := by
  intro fuel
  induction fuel with
  | zero =>
    intro reqIdx offset hfuel
    simp only [REQUEST_CHUNK_SIZE] at hfuel
    refine ⟨?_, by simp [forEachLoop]⟩
    simp only [forEachLoop]
    rw [Eq.comm, List.drop_eq_nil_iff]
    omega
  | succ n ih =>
    intro reqIdx offset hfuel
    have hC : REQUEST_CHUNK_SIZE = 100 := rfl
    simp only [REQUEST_CHUNK_SIZE] at hfuel
    simp only [forEachLoop, reduceCtorEq, if_false]
    have hlen : (serverChunk server offset REQUEST_CHUNK_SIZE).length =
        min REQUEST_CHUNK_SIZE (server.length - offset) := serverChunk_length ..
    split
    next hshort =>
      refine ⟨?_, rfl⟩
      rw [serverChunk, List.take_of_length_le]
      simp only [List.length_drop]
      omega
    next hlong =>
      rw [Nat.not_lt] at hlong
      have h100 : (serverChunk server offset REQUEST_CHUNK_SIZE).length = 100 := by
        omega
      obtain ⟨ih1, ih2⟩ := ih (reqIdx + 1)
        (offset + (serverChunk server offset REQUEST_CHUNK_SIZE).length)
        (by rw [h100]; simp only [REQUEST_CHUNK_SIZE]; omega)
      refine ⟨?_, by simpa using ih2⟩
      rw [ih1, h100, serverChunk, hC, ← List.drop_drop 100 offset server,
        List.take_append_drop]

theorem forEachLoop_visited_prefix (server : List α) (failAt : Option Nat) :
    ∀ fuel reqIdx offset,
      (forEachLoop server failAt reqIdx offset fuel).1 <+: server.drop offset := by
  intro fuel
  induction fuel with
  | zero => intro reqIdx offset; simp [forEachLoop]
  | succ n ih =>
    intro reqIdx offset
    simp only [forEachLoop]
    split
    · simp
    · split
      next hshort => exact List.take_prefix ..
      next hlong =>
        rw [Nat.not_lt, serverChunk_length] at hlong
        have hmin : min REQUEST_CHUNK_SIZE (server.length - offset) =
            REQUEST_CHUNK_SIZE := by
          omega
        obtain ⟨t, ht⟩ := ih (reqIdx + 1)
          (offset + (serverChunk server offset REQUEST_CHUNK_SIZE).length)
        refine ⟨t, ?_⟩
        rw [List.append_assoc, ht, serverChunk, List.length_take,
          List.length_drop, ← List.drop_drop, hmin, List.take_append_drop]

theorem forEachLoop_trace_limit (server : List α) (failAt : Option Nat) :
    ∀ fuel reqIdx offset,
      ∀ r ∈ (forEachLoop server failAt reqIdx offset fuel).2.1,
        r.limit = REQUEST_CHUNK_SIZE := by
  intro fuel
  induction fuel with
  | zero => intro reqIdx offset r hr; simp [forEachLoop] at hr
  | succ n ih =>
    intro reqIdx offset r hr
    simp only [forEachLoop] at hr
    split at hr
    · simp at hr
    · split at hr
      · simp only [List.mem_singleton] at hr
        subst hr
        rfl
      · simp only [List.mem_cons] at hr
        rcases hr with hr | hr
        · subst hr; rfl
        · exact ih _ _ r hr

theorem forEachLoop_trace_offset_lb (server : List α) (failAt : Option Nat) :
    ∀ fuel reqIdx offset,
      ∀ r ∈ (forEachLoop server failAt reqIdx offset fuel).2.1,
        offset ≤ r.offset := by
  intro fuel
  induction fuel with
  | zero => intro reqIdx offset r hr; simp [forEachLoop] at hr
  | succ n ih =>
    intro reqIdx offset r hr
    simp only [forEachLoop] at hr
    split at hr
    · simp at hr
    · split at hr
      · simp only [List.mem_singleton] at hr
        subst hr
        exact Nat.le_refl _
      · simp only [List.mem_cons] at hr
        rcases hr with hr | hr
        · subst hr
          exact Nat.le_refl _
        · have := ih _ _ r hr
          omega

theorem forEachLoop_trace_pairwise (server : List α) (failAt : Option Nat) :
    ∀ fuel reqIdx offset,
      List.Pairwise (fun a b : ChunkReq => a.offset < b.offset)
        (forEachLoop server failAt reqIdx offset fuel).2.1 := by
  intro fuel
  induction fuel with
  | zero => intro reqIdx offset; simp [forEachLoop]
  | succ n ih =>
    intro reqIdx offset
    simp only [forEachLoop]
    split
    · simp
    · split
      next hshort => simp
      next hlong =>
        rw [Nat.not_lt] at hlong
        have hC : REQUEST_CHUNK_SIZE = 100 := rfl
        refine List.pairwise_cons.mpr ⟨?_, ih _ _⟩
        intro r hr
        have := forEachLoop_trace_offset_lb server failAt n _ _ r hr
        dsimp only
        omega

theorem forEachLoop_trace_shape (server : List α) :
    ∀ fuel reqIdx offset, offset ≤ server.length →
      server.length < offset + REQUEST_CHUNK_SIZE * fuel →
      ∃ ts t, (forEachLoop server none reqIdx offset fuel).2.1 = ts ++ [t] ∧
        ∀ r ∈ ts, r.returned = REQUEST_CHUNK_SIZE := by
  intro fuel
  induction fuel with
  | zero =>
    intro reqIdx offset hoff hfuel
    simp only [REQUEST_CHUNK_SIZE] at hfuel
    omega
  | succ n ih =>
    intro reqIdx offset hoff hfuel
    have hC : REQUEST_CHUNK_SIZE = 100 := rfl
    simp only [REQUEST_CHUNK_SIZE] at hfuel
    simp only [forEachLoop, reduceCtorEq, if_false]
    have hlen : (serverChunk server offset REQUEST_CHUNK_SIZE).length =
        min REQUEST_CHUNK_SIZE (server.length - offset) := serverChunk_length ..
    split
    next hshort =>
      exact ⟨[], ⟨offset, REQUEST_CHUNK_SIZE,
        (serverChunk server offset REQUEST_CHUNK_SIZE).length⟩,
        by simp, by simp⟩
    next hlong =>
      rw [Nat.not_lt] at hlong
      have h100 : (serverChunk server offset REQUEST_CHUNK_SIZE).length = 100 := by
        omega
      obtain ⟨ts, t, htr, hts⟩ := ih (reqIdx + 1)
        (offset + (serverChunk server offset REQUEST_CHUNK_SIZE).length)
        (by omega)
        (by rw [h100]; simp only [REQUEST_CHUNK_SIZE]; omega)
      refine ⟨⟨offset, REQUEST_CHUNK_SIZE,
        (serverChunk server offset REQUEST_CHUNK_SIZE).length⟩ :: ts, t,
        by simp [htr], ?_⟩
      intro r hr
      simp only [List.mem_cons] at hr
      rcases hr with hr | hr
      · subst hr
        dsimp only
        omega
      · exact hts r hr

/-- C2: `forEach` fetches chunks of fixed requested size 100 starting at
offset 0, invokes `eachCallback` exactly once per server item in ascending
offset order, advances the offset by each chunk's actual returned length,
terminates after the first chunk shorter than 100 (every non-final chunk
returns exactly 100 items, offsets strictly increase), and signals
completion exactly once, after the last item on success or with the error
on failure (on failure the delivered items are a prefix of the sequence). -/
theorem c2_forEach_streaming (server : List Nat) (failAt : Option Nat) :
    forEachEvents server none true =
      server.map FEvent.item ++ [FEvent.complete none] ∧
    (∃ pre : List Nat, pre <+: server ∧
      forEachEvents server failAt true =
        pre.map FEvent.item ++
          [FEvent.complete
            (forEachLoop server failAt 0 0 (server.length + 1)).2.2]) ∧
    (∀ r ∈ (forEachLoop server failAt 0 0 (server.length + 1)).2.1,
      r.limit = REQUEST_CHUNK_SIZE) ∧
    List.Pairwise (fun a b : ChunkReq => a.offset < b.offset)
      (forEachLoop server failAt 0 0 (server.length + 1)).2.1 ∧
    (∀ r ∈ (forEachLoop server none 0 0 (server.length + 1)).2.1.dropLast,
      r.returned = REQUEST_CHUNK_SIZE) := by
  have hbound : server.length < 0 + REQUEST_CHUNK_SIZE * (server.length + 1) := by
    simp only [REQUEST_CHUNK_SIZE]
    omega
  refine ⟨?_, ?_, ?_, ?_, ?_⟩
  · obtain ⟨h1, h2⟩ := forEachLoop_none_eq server (server.length + 1) 0 0 hbound
    rw [forEachEvents]
    simp only [h1, h2, List.drop_zero, if_true]
  · refine ⟨(forEachLoop server failAt 0 0 (server.length + 1)).1, ?_, ?_⟩
    · have := forEachLoop_visited_prefix server failAt (server.length + 1) 0 0
      simpa using this
    · rw [forEachEvents]
      simp
  · exact forEachLoop_trace_limit server failAt (server.length + 1) 0 0
  · exact forEachLoop_trace_pairwise server failAt (server.length + 1) 0 0
  · obtain ⟨ts, t, htr, hts⟩ := forEachLoop_trace_shape server
      (server.length + 1) 0 0 (Nat.zero_le _) hbound
    intro r hr
    rw [htr, List.dropLast_concat] at hr
    exact hts r hr

/-- C7 (amended): on an absent (`undefined`) or `null` input no attribute
kind ever raises (each `fromJSON` is total here, mirroring the absence of
`throw` in every `fromJSON` of the source) and each returns its zero value:
`""` for String, `[]` for StringList and Collection, `false` for Boolean,
and `null` for the base kind, Object, Date and DateTime; Number yields
`null` on `undefined` but yields the number `0` on a present `null`,
because JS `isNaN(null)` is `false`. -/
theorem c7_fromJSON_zero_values :
    attributeFromJSON .undef = .null ∧ attributeFromJSON .null = .null ∧
    attributeNumberFromJSON .undef = .null ∧
    attributeNumberFromJSON .null = .num 0 ∧
    attributeStringFromJSON .undef = .str "" ∧
    attributeStringFromJSON .null = .str "" ∧
    attributeStringListFromJSON .undef = .arr [] ∧
    attributeStringListFromJSON .null = .arr [] ∧
    attributeBooleanFromJSON .undef = .bool false ∧
    attributeBooleanFromJSON .null = .bool false ∧
    attributeDateFromJSONVal .undef = .null ∧
    attributeDateFromJSONVal .null = .null ∧
    attributeDateTimeFromJSONVal .undef = .null ∧
    attributeDateTimeFromJSONVal .null = .null ∧
    attributeObjectFromJSON .undef = .null ∧
    attributeObjectFromJSON .null = .null ∧
    attributeCollectionFromJSON .undef = .arr [] ∧
    attributeCollectionFromJSON .null = .arr [] :=
  ⟨rfl, rfl, rfl, rfl, rfl, rfl, rfl, rfl, rfl, rfl, rfl, rfl, rfl, rfl,
   rfl, rfl, rfl, rfl⟩

/-- C7, counterexample to the original claim: `AttributeNumber.fromJSON`
applied to a present `null` returns the number `0`, not `null` (JS
`isNaN(null)` is `false` since `Number(null)` is `0`). -/
theorem c7_number_null_cex :
    attributeNumberFromJSON .null = .num 0 ∧ JVal.num 0 ≠ .null :=
  ⟨rfl, fun h => JVal.noConfusion h⟩

theorem JVal.isUndef_iff (v : JVal) : v.isUndef = true ↔ v = .undef := by
  cases v <;> simp [JVal.isUndef]

theorem modelFromJSON_frame (attrs : List AttrSpec) (json : String → JVal)
    (k : String) (hk : k ∉ attrs.map (fun s => s.modelKey)) :
    ∀ state, modelFromJSON attrs json state k = state k := by
  induction attrs with
  | nil => intro state; rfl
  | cons a rest ih =>
    intro state
    simp only [List.map_cons, List.mem_cons, not_or] at hk
    simp only [modelFromJSON]
    rw [ih (by simpa using hk.2)]
    split
    · rfl
    · exact if_neg hk.1

theorem modelFromJSON_assign (attrs : List AttrSpec) (json : String → JVal)
    (a : AttrSpec) (ha : a ∈ attrs)
    (hnd : (attrs.map (fun s => s.modelKey)).Nodup) :
    ∀ state, modelFromJSON attrs json state a.modelKey =
      if (json a.jsonKey).isUndef then state a.modelKey
      else kindFromJSON a.kind (json a.jsonKey) := by
  induction attrs with
  | nil => cases ha
  | cons b rest ih =>
    intro state
    simp only [List.map_cons, List.nodup_cons] at hnd
    rcases List.mem_cons.mp ha with rfl | hmem
    · simp only [modelFromJSON]
      rw [modelFromJSON_frame rest json _ (by simpa using hnd.1)]
      split
      next h => rfl
      next h => exact if_pos rfl
    · have hne : b.modelKey ≠ a.modelKey := by
        intro hEq
        exact hnd.1 (hEq ▸ List.mem_map_of_mem (fun s => s.modelKey) hmem)
      simp only [modelFromJSON]
      rw [ih hmem hnd.2]
      split
      next h =>
        split
        next h2 => rfl
        next h2 => exact if_neg (fun hEq => hne hEq.symm)
      next h => rfl

/-- C8: `RestfulModel.fromJSON` assigns `attr.fromJSON(json[jsonKey], this)`
to exactly those declared attributes whose wire key maps to a value other
than `undefined`: a key present with value `null` is processed, an entirely
missing key leaves the prior field value unchanged, and fields outside the
declared attributes are never touched; consequently the re-hydration that
`_save` performs on the server response leaves every field absent from the
response untouched. -/
theorem c8_fromJSON_partial_update (attrs : List AttrSpec)
    (json state : String → JVal) (a : AttrSpec) (k : String)
    (hnd : (attrs.map (fun s => s.modelKey)).Nodup) (ha : a ∈ attrs) :
    (json a.jsonKey = JVal.undef →
      modelFromJSON attrs json state a.modelKey = state a.modelKey) ∧
    (json a.jsonKey ≠ JVal.undef →
      modelFromJSON attrs json state a.modelKey =
        kindFromJSON a.kind (json a.jsonKey)) ∧
    (k ∉ attrs.map (fun s => s.modelKey) →
      modelFromJSON attrs json state k = state k) ∧
    (k ∉ attrs.map (fun s => s.modelKey) →
      saveRehydrate attrs json state k = state k) := by
  refine ⟨?_, ?_, ?_, ?_⟩
  · intro h
    rw [modelFromJSON_assign attrs json a ha hnd state,
      if_pos ((JVal.isUndef_iff _).mpr h)]
  · intro h
    rw [modelFromJSON_assign attrs json a ha hnd state,
      if_neg (fun hu => h ((JVal.isUndef_iff _).mp hu))]
  · intro h
    exact modelFromJSON_frame attrs json k h state
  · intro h
    exact modelFromJSON_frame attrs json k h state

theorem c8_fromJSON_partial_update_witness :
    modelFromJSON calendarAttributes c8WitnessJson c8WitnessState "name" =
      .str "Work" ∧
    modelFromJSON calendarAttributes c8WitnessJson c8WitnessState
      "timezone" = .str "UTC" ∧
    modelFromJSON calendarAttributes c8WitnessJson c8WitnessState
      "calendarId" = .null := by
  refine ⟨?_, ?_, ?_⟩
  · rw [(c8_fromJSON_partial_update calendarAttributes c8WitnessJson
      c8WitnessState ⟨"name", "name", .string⟩ "x" (by decide)
      (by decide)).2.1 (by simp [c8WitnessJson])]
    rfl
  · rw [(c8_fromJSON_partial_update calendarAttributes c8WitnessJson
      c8WitnessState ⟨"timezone", "timezone", .string⟩ "x" (by decide)
      (by decide)).1 (by simp [c8WitnessJson])]
    rfl
  · rw [(c8_fromJSON_partial_update calendarAttributes c8WitnessJson
      c8WitnessState ⟨"id", "id", .string⟩ "calendarId" (by decide)
      (by decide)).2.2.1 (by decide)]
    rfl

/-- C5 (amended): `list` and `first` reject synchronously with a usage
error and issue no network request when `params.view` is `'count'` (the
callback, when supplied, is also invoked with the usage error, and the
rejected promise is returned even then); `find` does so when its `id` is
falsy and when `params.view` is `'count'` or `'ids'`; `count`, however,
performs no view validation at all — it always issues its request, and the
spread `{ view: 'count', ...params }` lets the caller-supplied view
override the transmitted one. -/
theorem c5_view_validation (resp : Except Nat (List Nat))
    (respN : Except Nat Nat) (cb : Bool) (v : Option View) (id : String) :
    (listChannels (some View.count) resp cb).issued = false ∧
    (listChannels (some View.count) resp cb).promise =
      .error (.usage "list() cannot be called with the count view") ∧
    (listChannels (some View.count) resp cb).calls =
      (if cb then
        [.error (.usage "list() cannot be called with the count view")]
       else []) ∧
    (firstChannels (some View.count) resp cb).issued = false ∧
    (firstChannels (some View.count) resp cb).promise =
      .error (.usage "first() cannot be called with the count view") ∧
    (findChannels "" v respN cb).issued = false ∧
    (findChannels "" v respN cb).promise =
      .error (.usage "find() must be called with an item id") ∧
    (id ≠ "" →
      (findChannels id (some View.count) respN cb).issued = false ∧
      (findChannels id (some View.count) respN cb).promise =
        .error (.usage "find() cannot be called with the count or ids view") ∧
      (findChannels id (some View.ids) respN cb).issued = false ∧
      (findChannels id (some View.ids) respN cb).promise =
        .error (.usage "find() cannot be called with the count or ids view")) ∧
    (countChannels v respN cb).issued = true ∧
    countSentView none = View.count ∧
    countSentView (some View.ids) = View.ids := by
  refine ⟨rfl, rfl, rfl, rfl, rfl, rfl, rfl, ?_, ?_, rfl, rfl⟩
  · intro hid
    unfold findChannels
    rw [if_neg hid, if_pos (Or.inl rfl)]
    rw [if_neg hid, if_pos (Or.inr rfl)]
    exact ⟨rfl, rfl, rfl, rfl⟩
  · unfold countChannels
    cases respN <;> rfl

theorem c5_view_validation_witness :
    (findChannels "cal-7" (some View.count) (.ok 3) false).issued = false ∧
    (findChannels "cal-7" (some View.count) (.ok 3) false).promise =
      .error (.usage "find() cannot be called with the count or ids view") ∧
    (findChannels "cal-7" (some View.ids) (.ok 3) false).issued = false ∧
    (findChannels "cal-7" (some View.ids) (.ok 3) false).promise =
      .error (.usage "find() cannot be called with the count or ids view") :=
  (c5_view_validation (.ok []) (.ok 3) false none "cal-7").2.2.2.2.2.2.2.1
    (by decide)

/-- C5, counterexample to the original claim: `count` given the
incompatible view `'ids'` does not reject synchronously with a usage error
and does issue its network request — the method contains no view check. -/
theorem c5_count_no_validation_cex :
    (countChannels (some View.ids) (.ok 5) false).issued = true ∧
    (countChannels (some View.ids) (.ok 5) false).promise = .ok (some 5) ∧
    (countChannels (some View.ids) (.ok 5) false).calls = [] :=
  ⟨rfl, rfl, rfl⟩

/-- C10: `forEach` returns a promise only on the `params.view == 'count'`
precondition violation, and that promise is rejected with the usage error;
on every other call it returns `undefined` and runs the traversal in the
background, so completion and any chunk-request error are observable only
through the optional completion callback — and with no completion callback
the error is silently swallowed (no callback invocation records it). -/
theorem c10_forEach_return_convention (view : Option View)
    (resp : Except Nat Unit) (hc : Bool) (e : Nat) :
    ((forEachChannels view resp hc).ret ≠ none ↔ view = some View.count) ∧
    (view = some View.count →
      (forEachChannels view resp hc).ret =
        some (.usage "forEach() cannot be called with the count view")) ∧
    (view ≠ some View.count →
      (forEachChannels view resp hc).ret = none) ∧
    (view ≠ some View.count → hc = false →
      (forEachChannels view resp hc).completeCalls = []) ∧
    (view ≠ some View.count → hc = true → resp = .error e →
      (forEachChannels view resp hc).completeCalls = [some (.request e)]) ∧
    (view ≠ some View.count → hc = true → resp = .ok () →
      (forEachChannels view resp hc).completeCalls = [none]) := by
  unfold forEachChannels
  by_cases hv : view = some View.count
  · rw [if_pos hv]
    refine ⟨?_, fun _ => rfl, fun h => absurd hv h, fun h => absurd hv h,
      fun h => absurd hv h, fun h => absurd hv h⟩
    simp [hv]
  · rw [if_neg hv]
    cases resp with
    | ok u =>
      cases u
      refine ⟨?_, fun h => absurd h hv, fun _ => rfl, fun _ hcf => ?_,
        fun _ _ hresp => ?_, fun _ hct _ => ?_⟩
      · simp [hv]
      · subst hcf; rfl
      · exact Except.noConfusion hresp
      · subst hct; rfl
    | error e2 =>
      refine ⟨?_, fun h => absurd h hv, fun _ => rfl, fun _ hcf => ?_,
        fun _ hct hresp => ?_, fun _ _ hresp => ?_⟩
      · simp [hv]
      · subst hcf; rfl
      · subst hct
        cases hresp
        rfl
      · exact Except.noConfusion hresp

theorem c10_forEach_return_convention_witness :
    (forEachChannels (some View.count) (.ok ()) true).ret =
      some (.usage "forEach() cannot be called with the count view") ∧
    (forEachChannels none (.error 3) false).completeCalls = [] ∧
    (forEachChannels none (.error 3) true).completeCalls =
      [some (.request 3)] :=
  ⟨(c10_forEach_return_convention (some View.count) (.ok ()) true 0).2.1 rfl,
   (c10_forEach_return_convention none (.error 3) false 3).2.2.2.1
     (by simp) rfl,
   (c10_forEach_return_convention none (.error 3) true 3).2.2.2.2.1
     (by simp) rfl rfl⟩

/-- C4: a response with status above 299 makes `request()` reject with an
error whose message is seeded from the body `message` and augmented with
`missing_fields` and `server_error` when present, and whose `statusCode`
equals the numeric response status; a 404 with body
`{message: "not found"}` rejects with message `"not found"` and status 404;
a response with status at most 299 resolves with the parsed body. -/
theorem c4_request_error_classification (sc : Nat) (body : RespBody) :
    (299 < sc →
      outcomeStatus (requestOutcome none sc body) = some sc ∧
      (body.missing_fields = none → body.server_error = none →
        outcomeMessage (requestOutcome none sc body) = some body.message) ∧
      (∀ mf, body.missing_fields = some mf → body.server_error = none →
        outcomeMessage (requestOutcome none sc body) =
          some (body.message ++ ": " ++ String.intercalate "," mf)) ∧
      (∀ se, body.missing_fields = none → body.server_error = some se →
        se ≠ "" →
        outcomeMessage (requestOutcome none sc body) =
          some (body.message ++ " (Server Error:\n              " ++ se ++
            "\n            )"))) ∧
    (sc ≤ 299 → requestOutcome none sc body = .ok body) ∧
    requestOutcome none 404 ⟨"not found", none, none⟩ =
      .error ⟨"not found", some 404⟩ := by
  refine ⟨?_, ?_, rfl⟩
  · intro hsc
    have hcond : (none : Option String).isSome = true ∨ 299 < sc :=
      Or.inr hsc
    refine ⟨?_, ?_, ?_, ?_⟩
    · rw [requestOutcome, if_pos hcond]
      simp only [outcomeStatus]
      rw [if_pos (by omega)]
    · intro hmf hse
      rw [requestOutcome, if_pos hcond]
      simp only [outcomeMessage, buildErrorMessage, hmf, hse]
    · intro mf hmf hse
      rw [requestOutcome, if_pos hcond]
      simp only [outcomeMessage, buildErrorMessage, hmf, hse]
    · intro se hmf hse hne
      rw [requestOutcome, if_pos hcond]
      simp only [outcomeMessage, buildErrorMessage, hmf, hse]
      rw [if_neg hne]
  · intro hsc
    rw [requestOutcome, if_neg]
    simp only [Option.isSome_none, Bool.false_eq_true, false_or, not_lt]
    omega

theorem c4_request_error_classification_witness :
    outcomeStatus (requestOutcome none 404
      ⟨"not found", none, none⟩) = some 404 ∧
    outcomeMessage (requestOutcome none 400
      ⟨"bad", some ["to", "cc"], none⟩) = some "bad: to,cc" ∧
    requestOutcome none 200 ⟨"ok", none, none⟩ =
      .ok ⟨"ok", none, none⟩ :=
  ⟨((c4_request_error_classification 404 ⟨"not found", none, none⟩).1
      (by decide)).1,
   ((c4_request_error_classification 400 ⟨"bad", some ["to", "cc"], none⟩).1
      (by decide)).2.2.1 ["to", "cc"] rfl rfl,
   (c4_request_error_classification 200 ⟨"ok", none, none⟩).2.1
      (by decide)⟩

theorem append_ne_empty_left (a b : String) (h : a ≠ "") : a ++ b ≠ "" := by
  intro hEq
  apply h
  have hd := congrArg String.data hEq
  rw [String.data_append] at hd
  rcases List.append_eq_nil.mp hd with ⟨ha, _⟩
  cases a
  simp at ha
  simp [ha]

set_option maxRecDepth 20000 in
/-- C9 (amended): `request()` computes the version warning by comparing the
`nylas-api-version` response header against the supported version `"2.1"`;
the warning never influences the promise outcome.  A warning is produced
exactly when the header is present, nonempty and different from `"2.1"`;
it names which side is newer only when the integer parts of the two
versions differ (an absent header, though different from `"2.1"`, produces
no warning). -/
theorem c9_version_warning (t : Option String) (sc : Nat)
    (h h2 : Option String) (body : RespBody) :
    (requestRun t sc h body).1 = (requestRun t sc h2 body).1 ∧
    (requestRun t sc h body).1 = requestOutcome t sc body ∧
    (requestRun t sc h body).2 =
      getWarningForVersion (some SUPPORTED_API_VERSION) h ∧
    getWarningForVersion (some SUPPORTED_API_VERSION)
      (some SUPPORTED_API_VERSION) = "" ∧
    getWarningForVersion (some SUPPORTED_API_VERSION) none = "" ∧
    getWarningForVersion (some SUPPORTED_API_VERSION) (some "") = "" ∧
    (∀ v, v ≠ "" → v ≠ SUPPORTED_API_VERSION →
      getWarningForVersion (some SUPPORTED_API_VERSION) (some v) ≠ "") ∧
    strEndsWith (getWarningForVersion (some SUPPORTED_API_VERSION)
      (some "1.0"))
      "Please update the version of the API that your application is using through the developer dashboard." = true ∧
    strEndsWith (getWarningForVersion (some SUPPORTED_API_VERSION)
      (some "3.0"))
      "Please update the sdk to ensure it works properly." = true := by
  refine ⟨rfl, rfl, rfl, rfl, rfl, rfl, ?_, by decide, by decide⟩
  intro v hv h21
  unfold getWarningForVersion SUPPORTED_API_VERSION
  rw [if_neg (fun hEq =>
    h21 (by simpa [SUPPORTED_API_VERSION] using (Option.some.inj hEq).symm))]
  dsimp only
  rw [if_neg (by simp [hv])]
  rw [show jsParseInt (splitDashHead "2.1") = some 2 from by decide]
  cases hapi : jsParseInt (splitDashHead v) with
  | none =>
    dsimp only
    repeat apply append_ne_empty_left
    decide
  | some a =>
    dsimp only
    split_ifs <;>
      (repeat apply append_ne_empty_left) <;> decide

set_option maxRecDepth 20000 in
/-- C9, counterexample to the original claim: for the differing versions
`2.1` (SDK) and `2.2` (server) the warning is emitted but consists of the
base message only — since `parseInt` maps both to the integer `2`, neither
"newer" sentence is appended, so the warning does not state which of the
two sides is newer. -/
theorem c9_no_newer_side_cex :
    getWarningForVersion (some SUPPORTED_API_VERSION) (some "2.2") =
      "WARNING: SDK version may not support your Nylas API version. SDK supports version 2.1 of the API and your application is currently running on version 2.2 of the API." ∧
    getWarningForVersion (some SUPPORTED_API_VERSION) (some "2.2") ≠ "" ∧
    strEndsWith (getWarningForVersion (some SUPPORTED_API_VERSION)
      (some "2.2"))
      "Please update the version of the API that your application is using through the developer dashboard." = false ∧
    strEndsWith (getWarningForVersion (some SUPPORTED_API_VERSION)
      (some "2.2"))
      "Please update the sdk to ensure it works properly." = false := by
  refine ⟨by decide, by decide, by decide, by decide⟩

theorem c9_version_warning_witness :
    getWarningForVersion (some SUPPORTED_API_VERSION) (some "2.5") ≠ "" :=
  (c9_version_warning none 200 none none ⟨"", none, none⟩).2.2.2.2.2.2.1
    "2.5" (by decide) (by decide)

theorem c2_forEach_streaming_witness :
    forEachEvents [3, 1, 2] none true =
      [FEvent.item 3, FEvent.item 1, FEvent.item 2, FEvent.complete none] :=
  (c2_forEach_streaming [3, 1, 2] none).1

